import Mathlib

/-!
Verification of `src/send_logreturns.py`: a short script that computes
logarithmic returns from a price series, encodes them in signed 64.64
fixed point, and submits them to a contract in a single transaction.
In the shipped file every non-blank line is commented out with `#`;
we model both the textual fact (the lines of the file) and the behaviour
of the code those comments contain.
-/

/-- The 69 lines of `src/send_logreturns.py`, verbatim (the file ends with a
newline after the last line; blank lines are the empty string). -/
def sourceLines : List String :=
  [ "# import json"
  , "# from web3 import Web3"
  , "# import math"
  , "# import os"
  , "# from dotenv import load_dotenv"
  , ""
  , "# # Load environment variables from .env"
  , "# load_dotenv()"
  , ""
  , "# # Configure connection to Anvil (local node)"
  , "# w3 = Web3(Web3.HTTPProvider(\"http://127.0.0.1:8545\"))"
  , ""
  , "# # Verify connection"
  , "# assert w3.isConnected(), \"Failed to connect to Ethereum node\""
  , ""
  , "# # Deployed contract address (change according to your deployment)"
  , "# contract_address = \"0x..\""
  , ""
  , "# # Load contract ABI"
  , "# with open(\"out/VolatilityCalculator.sol/VolatilityCalculator.json\", \"r\") as f:"
  , "#     contract_abi = json.load(f)[\"abi\"]"
  , ""
  , "# # Create contract instance"
  , "# contract = w3.eth.contract(address=contract_address, abi=contract_abi)"
  , ""
  , "# # Address of the account that will send transactions (use Anvil\x27s account #0)"
  , "# account = w3.eth.account.from_key(os.getenv(\"PRIVATE_KEY\"))"
  , ""
  , "# # Historical prices"
  , "# prices = [100, 105, 102, 108]"
  , ""
  , "# def calculate_log_returns(prices):"
  , "#     log_returns = []"
  , "#     for i in range(1, len(prices)):"
  , "#         log_return = math.log(prices[i] / prices[i - 1])"
  , "#         log_returns.append(log_return)"
  , "#     return log_returns"
  , ""
  , "# def to_64x64(value):"
  , "#     return int(value * (2**64))"
  , ""
  , "# if __name__ == \"__main__\":"
  , "#     # Calculate logarithmic returns"
  , "#     log_returns = calculate_log_returns(prices)"
  , "#     print(\"Logarithmic Returns:\", log_returns)"
  , ""
  , "#     # Convert to 64.64 fixed point"
  , "#     log_returns_64x64 = [to_64x64(r) for r in log_returns]"
  , "#     print(\"Logarithmic Returns (64.64 fixed point):\", log_returns_64x64)"
  , ""
  , "#     # Prepare the transaction"
  , "#     # To optimize, all returns will be sent in a single transaction"
  , "#     tx = contract.functions.addLogReturns(log_returns_64x64).buildTransaction(\x7b"
  , "#         \x27from\x27: account.address,"
  , "#         \x27nonce\x27: w3.eth.get_transaction_count(account.address),"
  , "#         \x27gas\x27: 500000,  # Adjust as necessary"
  , "#         \x27gasPrice\x27: w3.toWei(\x271\x27, \x27gwei\x27)  # Adjust as necessary"
  , "#     \x7d)"
  , ""
  , "#     # Sign the transaction"
  , "#     signed_tx = account.sign_transaction(tx)"
  , ""
  , "#     # Send the transaction"
  , "#     tx_hash = w3.eth.send_raw_transaction(signed_tx.rawTransaction)"
  , "#     print(f\"Transaction sent with hash: \x7btx_hash.hex()\x7d\")"
  , ""
  , "#     # Wait for the transaction to be mined"
  , "#     receipt = w3.eth.wait_for_transaction_receipt(tx_hash)"
  , "#     print(f\"Transaction mined in block \x7breceipt.blockNumber\x7d\")"
  ]

/-- A physical line is a Python comment line when its first character is `#`. -/
def isCommentLine (l : String) : Bool :=
  match l.data with
  | [] => false
  | c :: _ => c = '#'

/-- A physical line of this file is executable Python text when it is neither
blank nor a comment line (the file contains no multi-line constructs and its
blank lines are exactly the empty lines, so this is exact here). -/
def isExecutableLine (l : String) : Bool :=
  !(isCommentLine l) && !(l.data.isEmpty)

/-- Runtime errors the script can raise while computing:
division by zero and the `math.log` domain error. -/
inductive PyErr
  | zeroDivisionError
  | mathDomainError
deriving DecidableEq

/-- Python true division `a / b`: raises `ZeroDivisionError` when `b = 0`. -/
noncomputable def divE (a b : ℝ) : Except PyErr ℝ :=
  if b = 0 then .error .zeroDivisionError else .ok (a / b)

/-- Python `math.log x`: raises a domain `ValueError` unless `x > 0`. -/
noncomputable def logE (x : ℝ) : Except PyErr ℝ :=
  if x ≤ 0 then .error .mathDomainError else .ok (Real.log x)

/-- Embedding of `calculate_log_returns` (lines 32-37): for `i` from 1 to
`len(prices) - 1` append `math.log(prices[i] / prices[i-1])`; the first
failing step aborts the whole computation, as in Python. -/
noncomputable def calculate_log_returns : List ℝ → Except PyErr (List ℝ)
  | p0 :: p1 :: rest => do
      let q ← divE p1 p0
      let r ← logE q
      let tail ← calculate_log_returns (p1 :: rest)
      pure (r :: tail)
  | _ => pure []

/-- Embedding of `to_64x64` (lines 39-40): `int(value * (2**64))`.
Python `int` on a real value truncates toward zero: floor for nonnegative
arguments, ceiling for negative ones. -/
noncomputable def to_64x64 (value : ℝ) : ℤ :=
  if 0 ≤ value * 2 ^ 64 then ⌊value * 2 ^ 64⌋ else ⌈value * 2 ^ 64⌉

/-- Truncation toward zero of a real number, as the spec words it
("integer = truncate(value × 2^64)"). -/
noncomputable def truncTowardZero (x : ℝ) : ℤ :=
  if 0 ≤ x then ⌊x⌋ else ⌈x⌉

/-- The log-return list the spec describes: element `i` equals
`ln(price[i+1] / price[i])`, for `i` from 0 to `len(prices) - 2`. -/
noncomputable def logReturnsSpec (prices : List ℝ) : List ℝ :=
  (List.range (prices.length - 1)).map
    (fun i => Real.log (prices.getD (i + 1) 0 / prices.getD i 0))

/-- The hardcoded price series of line 30. -/
def prices : List ℝ := [100, 105, 102, 108]

/-- The transaction record the script assembles (lines 53-58): sender,
nonce, gas limit, gas price in wei, called method and its single argument,
the whole fixed-point array. ABI encoding and signing are the external
library and are kept opaque. -/
structure TxRequest where
  sender : String
  nonce : ℕ
  gas : ℕ
  gasPrice : ℕ
  method : String
  callArgs : List ℤ

/-- Conversion of line 57, `w3.toWei(n, "gwei")`: one gwei is `10^9` wei. -/
def toWeiGwei (n : ℕ) : ℕ := n * 1000000000

/-- Embedding of the main block (lines 42-58): compute the log returns,
encode each in 64.64 fixed point, and build the list of transactions the
run submits - a single transaction carrying the whole encoded array,
with gas `500000` and gas price 1 gwei. -/
noncomputable def script_transactions (senderAddress : String) (accountNonce : ℕ)
    (priceSeq : List ℝ) : Except PyErr (List TxRequest) := do
  let log_returns ← calculate_log_returns priceSeq
  let log_returns_64x64 := log_returns.map to_64x64
  pure [{ sender := senderAddress
        , nonce := accountNonce
        , gas := 500000
        , gasPrice := toWeiGwei 1
        , method := "addLogReturns"
        , callArgs := log_returns_64x64 }]

/-! ### Helper lemmas -/

theorem exists_succ_split (P : ℕ → Prop) : (∃ i, P i) ↔ P 0 ∨ ∃ i, P (i + 1) := by
  constructor
  · rintro ⟨i, hi⟩
    cases i with
    | zero => exact Or.inl hi
    | succ j => exact Or.inr ⟨j, hi⟩
  · rintro (h0 | ⟨j, hj⟩)
    · exact ⟨0, h0⟩
    · exact ⟨j + 1, hj⟩

theorem logReturnsSpec_cons (p0 p1 : ℝ) (rest : List ℝ) :
    logReturnsSpec (p0 :: p1 :: rest) = Real.log (p1 / p0) :: logReturnsSpec (p1 :: rest) := by
  simp [logReturnsSpec, List.range_succ_eq_map, List.map_map, Function.comp]

theorem logReturnsSpec_length (ps : List ℝ) :
    (logReturnsSpec ps).length = ps.length - 1 := by
  simp [logReturnsSpec]

theorem logReturnsSpec_getD (ps : List ℝ) (i : ℕ) (h : i < ps.length - 1) :
    (logReturnsSpec ps).getD i 0 = Real.log (ps.getD (i + 1) 0 / ps.getD i 0) := by
  rw [List.getD_eq_getElem _ _ (by simpa [logReturnsSpec] using h)]
  simp [logReturnsSpec]

/-- When no step divides by zero and every consecutive ratio is positive, the
computation reaches no error and returns exactly the spec's list. -/
theorem calc_ok_of : ∀ ps : List ℝ,
    (∀ i, i + 1 < ps.length → ps.getD i 0 ≠ 0 ∧ 0 < ps.getD (i + 1) 0 / ps.getD i 0) →
    calculate_log_returns ps = .ok (logReturnsSpec ps) := by
  intro ps
  induction ps with
  | nil => intro _; simp [calculate_log_returns, logReturnsSpec, pure, Except.pure]
  | cons p0 tail ih =>
    cases tail with
    | nil => intro _; simp [calculate_log_returns, logReturnsSpec, pure, Except.pure]
    | cons p1 rest =>
      intro h
      have h0 := h 0 (by simp)
      simp only [List.getD_cons_zero, List.getD_cons_succ] at h0
      have htail : ∀ i, i + 1 < (p1 :: rest).length →
          (p1 :: rest).getD i 0 ≠ 0 ∧
            0 < (p1 :: rest).getD (i + 1) 0 / (p1 :: rest).getD i 0 := by
        intro i hi
        have := h (i + 1) (by simpa using Nat.succ_lt_succ hi)
        simpa using this
      rw [logReturnsSpec_cons]
      simp [calculate_log_returns, divE, logE, bind, Except.bind, pure, Except.pure,
        Functor.map, Except.map, h0.1, not_le.mpr h0.2, ih htail]

/-- One unfolding step of the error behaviour on a list with two or more
elements: the head pair fails, or the computation on the tail fails. -/
theorem calc_cons_cons_error (p0 p1 : ℝ) (rest : List ℝ) :
    (∃ e, calculate_log_returns (p0 :: p1 :: rest) = .error e) ↔
      (p0 = 0 ∨ p1 / p0 ≤ 0) ∨ ∃ e, calculate_log_returns (p1 :: rest) = .error e := by
  by_cases hp0 : p0 = 0
  · simp [calculate_log_returns, divE, hp0, bind, Except.bind]
  · by_cases hq : p1 / p0 ≤ 0
    · simp [calculate_log_returns, divE, logE, hp0, hq, bind, Except.bind]
    · cases htail : calculate_log_returns (p1 :: rest) with
      | error e =>
        simp [calculate_log_returns, divE, logE, hp0, hq, htail, bind, Except.bind,
          Functor.map, Except.map]
      | ok t =>
        simp [calculate_log_returns, divE, logE, hp0, hq, htail, bind, Except.bind,
          Functor.map, Except.map, pure, Except.pure]

/-- The computation raises an error exactly when some consecutive pair has a
zero earlier price or a non-positive ratio. -/
theorem calc_error_iff : ∀ ps : List ℝ,
    (∃ e, calculate_log_returns ps = .error e) ↔
      ∃ i, i + 1 < ps.length ∧
        (ps.getD i 0 = 0 ∨ ps.getD (i + 1) 0 / ps.getD i 0 ≤ 0) := by
  intro ps
  induction ps with
  | nil => simp [calculate_log_returns, pure, Except.pure]
  | cons p0 tail ih =>
    cases tail with
    | nil => simp [calculate_log_returns, pure, Except.pure]
    | cons p1 rest =>
      rw [calc_cons_cons_error, ih]
      constructor
      · rintro (hc | ⟨i, hi, hcond⟩)
        · refine ⟨0, by simp only [List.length_cons]; omega, ?_⟩
          simpa using hc
        · refine ⟨i + 1, by simp only [List.length_cons] at hi ⊢; omega, ?_⟩
          simpa using hcond
      · rintro ⟨i, hi, hcond⟩
        cases i with
        | zero => exact Or.inl (by simpa using hcond)
        | succ j =>
          refine Or.inr ⟨j, by simp only [List.length_cons] at hi ⊢; omega, ?_⟩
          simpa using hcond

/-- Truncation toward zero lands within distance one of the argument. -/
theorem truncTowardZero_sub_lt_one (x : ℝ) : |(truncTowardZero x : ℝ) - x| < 1 := by
  by_cases h : 0 ≤ x
  · rw [truncTowardZero, if_pos h, abs_sub_comm, abs_of_nonneg (sub_nonneg.mpr (Int.floor_le x))]
    linarith [Int.lt_floor_add_one x]
  · rw [truncTowardZero, if_neg h, abs_of_nonneg (sub_nonneg.mpr (Int.le_ceil x))]
    linarith [Int.ceil_lt_add_one x]

/-- Truncation toward zero drops the fractional part of the magnitude. -/
theorem truncTowardZero_abs (x : ℝ) : |truncTowardZero x| = ⌊|x|⌋ := by
  by_cases h : 0 ≤ x
  · rw [truncTowardZero, if_pos h, abs_of_nonneg (Int.floor_nonneg.mpr h), abs_of_nonneg h]
  · push_neg at h
    have hc : ⌈x⌉ ≤ 0 := Int.ceil_le.mpr (by exact_mod_cast h.le)
    rw [truncTowardZero, if_neg (not_le.mpr h), abs_of_nonpos hc,
      abs_of_neg h, ← Int.floor_neg]

/-- Evaluation on the script's hardcoded price series. -/
theorem calc_concrete : calculate_log_returns [(100 : ℝ), 105, 102, 108] =
    Except.ok [Real.log (105 / 100), Real.log (102 / 105), Real.log (108 / 102)] := by
  norm_num [calculate_log_returns, divE, logE, bind, Except.bind, pure, Except.pure,
    Functor.map, Except.map]

/-! ### Claim theorems -/

/-- C1, counterexample: not every line of `src/send_logreturns.py` is a
comment line - the file interleaves blank lines (line 6 is empty) between
its comment blocks. -/
theorem sourceLines_not_all_comments :
    ¬ ∀ l ∈ sourceLines, isCommentLine l = true := by decide

/-- C1, amended: every line of `src/send_logreturns.py` is a comment line or
blank, so the file contains no executable line at all and running the script
is a no-op: it defines no functions, prints nothing, computes nothing, and
submits no transaction. -/
theorem sourceLines_comment_or_blank_noop :
    (sourceLines.all fun l => isCommentLine l || l.data.isEmpty) = true ∧
      sourceLines.filter isExecutableLine = [] :=
  ⟨by decide, by decide⟩

/-- C2: on any list of strictly positive prices of length at least two,
`calculate_log_returns` succeeds with exactly `N - 1` values whose element
`i` is `ln(price[i+1] / price[i])`; in particular on `[100, 105, 102, 108]`
it returns `[ln(105/100), ln(102/105), ln(108/102)]`. -/
theorem calculate_log_returns_correct :
    (∀ ps : List ℝ, (∀ p ∈ ps, 0 < p) → 2 ≤ ps.length →
      ∃ rs, calculate_log_returns ps = Except.ok rs ∧
        rs.length = ps.length - 1 ∧
        ∀ i, i < rs.length → rs.getD i 0 = Real.log (ps.getD (i + 1) 0 / ps.getD i 0)) ∧
    calculate_log_returns [(100 : ℝ), 105, 102, 108] =
      Except.ok [Real.log (105 / 100), Real.log (102 / 105), Real.log (108 / 102)] := by
  constructor
  · intro ps hpos _
    have hcond : ∀ i, i + 1 < ps.length →
        ps.getD i 0 ≠ 0 ∧ 0 < ps.getD (i + 1) 0 / ps.getD i 0 := by
      intro i hi
      have hi0 : i < ps.length := by omega
      have h1 : 0 < ps.getD i 0 := by
        rw [List.getD_eq_getElem _ _ hi0]
        exact hpos _ (List.getElem_mem hi0)
      have h2 : 0 < ps.getD (i + 1) 0 := by
        rw [List.getD_eq_getElem _ _ hi]
        exact hpos _ (List.getElem_mem hi)
      exact ⟨ne_of_gt h1, div_pos h2 h1⟩
    refine ⟨logReturnsSpec ps, calc_ok_of ps hcond, logReturnsSpec_length ps, ?_⟩
    intro i hi
    exact logReturnsSpec_getD ps i (by rwa [logReturnsSpec_length] at hi)
  · exact calc_concrete

/-- Witness for C2 at the script's price series. -/
theorem calculate_log_returns_correct_witness :
    (∀ p ∈ [(100 : ℝ), 105, 102, 108], 0 < p) ∧
      ∃ rs, calculate_log_returns [(100 : ℝ), 105, 102, 108] = Except.ok rs ∧
        rs.length = 3 := by
  refine ⟨by norm_num, ?_⟩
  obtain ⟨rs, h1, h2, _⟩ :=
    calculate_log_returns_correct.1 [(100 : ℝ), 105, 102, 108] (by norm_num) (by norm_num)
  exact ⟨rs, h1, by simpa using h2⟩

/-- C3: the encoder computes the truncation toward zero of `value * 2^64`
(floor above zero, ceiling below; the magnitude is the floor of the
magnitude), not a rounding. -/
theorem to_64x64_truncates_toward_zero (value : ℝ) :
    to_64x64 value = truncTowardZero (value * 2 ^ 64) ∧
      |to_64x64 value| = ⌊|value * 2 ^ 64|⌋ :=
  ⟨rfl, truncTowardZero_abs _⟩

/-- C4, counterexample: the encoder does not round to nearest; at
`value = 2 ^ (-65)`, where `value * 2^64 = 1/2`, it returns `0` while
`round` returns `1`. -/
theorem to_64x64_ne_round :
    to_64x64 ((2 ^ 65 : ℝ)⁻¹) ≠ round (((2 ^ 65 : ℝ)⁻¹) * 2 ^ 64) := by
  norm_num [to_64x64, round_eq]

/-- C4, amended: for every real input value, the fixed-point encoder returns
`value * 2^64` truncated toward zero - an integer within distance one of
`value * 2^64` - not the nearest-integer rounding. -/
theorem to_64x64_amended_trunc (value : ℝ) :
    to_64x64 value = truncTowardZero (value * 2 ^ 64) ∧
      |(to_64x64 value : ℝ) - value * 2 ^ 64| < 1 :=
  ⟨rfl, truncTowardZero_sub_lt_one (value * 2 ^ 64)⟩

/-- C5, counterexample: a sequence containing non-positive elements need not
fail - on `[-1, -2]` both prices are negative yet the ratio is `2 > 0`, and
the function returns `[ln 2]` without any error. -/
theorem nonpositive_price_no_error :
    ((-1 : ℝ) ≤ 0) ∧ calculate_log_returns [(-1 : ℝ), -2] = Except.ok [Real.log 2] := by
  refine ⟨by norm_num, ?_⟩
  norm_num [calculate_log_returns, divE, logE, bind, Except.bind, pure, Except.pure,
    Functor.map, Except.map]

/-- C5, amended: whenever some consecutive pair has a zero earlier price or a
non-positive ratio `prices[i] / prices[i-1]`, `calculate_log_returns` fails
with an uncaught error (division or logarithm domain error) rather than
silently returning NaN or a truncated sequence. -/
theorem calc_error_of_bad_pair (ps : List ℝ)
    (h : ∃ i, i + 1 < ps.length ∧ (ps.getD i 0 = 0 ∨ ps.getD (i + 1) 0 / ps.getD i 0 ≤ 0)) :
    ∃ e, calculate_log_returns ps = Except.error e :=
  (calc_error_iff ps).mpr h

/-- Witness for the amended C5 at `[1, -1]`. -/
theorem calc_error_of_bad_pair_witness :
    ∃ e, calculate_log_returns [(1 : ℝ), -1] = Except.error e :=
  calc_error_of_bad_pair [(1 : ℝ), -1] ⟨0, by norm_num, Or.inr (by norm_num [List.getD])⟩

/-- C6: `calculate_log_returns` raises an error exactly when some consecutive
pair has a zero earlier price (division error) or a non-positive ratio
(logarithm domain error); in particular a strictly negative price sequence
yields `N - 1` values with no error. -/
theorem calc_error_iff_bad_pair :
    (∀ ps : List ℝ,
      (∃ e, calculate_log_returns ps = Except.error e) ↔
        ∃ i, i + 1 < ps.length ∧
          (ps.getD i 0 = 0 ∨ ps.getD (i + 1) 0 / ps.getD i 0 ≤ 0)) ∧
    (∀ ps : List ℝ, (∀ p ∈ ps, p < 0) →
      ∃ rs, calculate_log_returns ps = Except.ok rs ∧ rs.length = ps.length - 1) := by
  refine ⟨calc_error_iff, ?_⟩
  intro ps hneg
  have hcond : ∀ i, i + 1 < ps.length →
      ps.getD i 0 ≠ 0 ∧ 0 < ps.getD (i + 1) 0 / ps.getD i 0 := by
    intro i hi
    have hi0 : i < ps.length := by omega
    have h1 : ps.getD i 0 < 0 := by
      rw [List.getD_eq_getElem _ _ hi0]
      exact hneg _ (List.getElem_mem hi0)
    have h2 : ps.getD (i + 1) 0 < 0 := by
      rw [List.getD_eq_getElem _ _ hi]
      exact hneg _ (List.getElem_mem hi)
    exact ⟨ne_of_lt h1, div_pos_iff.mpr (Or.inr ⟨h2, h1⟩)⟩
  exact ⟨logReturnsSpec ps, calc_ok_of ps hcond, logReturnsSpec_length ps⟩

/-- Witness for C6: a zero price does error, an all-negative series does not. -/
theorem calc_error_iff_bad_pair_witness :
    (∃ e, calculate_log_returns [(0 : ℝ), 1] = Except.error e) ∧
      ∃ rs, calculate_log_returns [(-1 : ℝ), -2, -4] = Except.ok rs ∧ rs.length = 2 := by
  constructor
  · exact (calc_error_iff_bad_pair.1 [(0 : ℝ), 1]).mpr
      ⟨0, by norm_num, Or.inl (by norm_num [List.getD])⟩
  · simpa using calc_error_iff_bad_pair.2 [(-1 : ℝ), -2, -4] (by norm_num)

/-- C7: decoding the encoder's output as `to_64x64 value / 2^64` recovers the
input to within `2^(-64)`. -/
theorem to_64x64_roundtrip (value : ℝ) :
    |(to_64x64 value : ℝ) / 2 ^ 64 - value| ≤ ((2 : ℝ) ^ 64)⁻¹ := by
  have h := truncTowardZero_sub_lt_one (value * 2 ^ 64)
  rw [show to_64x64 value = truncTowardZero (value * 2 ^ 64) from rfl]
  rw [abs_lt] at h
  rw [abs_le]
  norm_num at h ⊢
  constructor <;> linarith [h.1, h.2]

/-- C8: the return calculation and the fixed-point encoding are pure
functions of their input - identical inputs give identical outputs, with no
hidden state anywhere in the embedding. -/
theorem calc_and_encode_deterministic :
    (∀ ps qs : List ℝ, ps = qs → calculate_log_returns ps = calculate_log_returns qs) ∧
    (∀ v w : ℝ, v = w → to_64x64 v = to_64x64 w) :=
  ⟨fun _ _ h => h ▸ rfl, fun _ _ h => h ▸ rfl⟩

/-- Witness for C8 at the script's price series and at zero. -/
theorem calc_and_encode_deterministic_witness :
    calculate_log_returns prices = calculate_log_returns prices ∧
      to_64x64 0 = to_64x64 0 :=
  ⟨calc_and_encode_deterministic.1 prices prices rfl,
    calc_and_encode_deterministic.2 0 0 rfl⟩

/-- C9: on an empty or single-element price sequence the loop body never
runs, so the function returns the empty list and signals no error. -/
theorem calc_short_input_empty (ps : List ℝ) (h : ps.length < 2) :
    calculate_log_returns ps = Except.ok [] := by
  cases ps with
  | nil => simp [calculate_log_returns, pure, Except.pure]
  | cons p tail =>
    cases tail with
    | nil => simp [calculate_log_returns, pure, Except.pure]
    | cons q rest => simp only [List.length_cons] at h; omega

/-- Witness for C9 on a one-element (even non-positive) sequence. -/
theorem calc_short_input_empty_witness :
    ([(-7 : ℝ)].length < 2) ∧ calculate_log_returns [(-7 : ℝ)] = Except.ok [] :=
  ⟨by norm_num, calc_short_input_empty [(-7 : ℝ)] (by norm_num)⟩

/-- C10: whenever the return computation succeeds, a run of the main block
builds exactly one transaction, carrying the whole fixed-point array as the
single call argument, with gas limit `500000` and gas price 1 gwei
(`10^9` wei), whatever the length of the price sequence. -/
theorem script_builds_single_transaction (addr : String) (accNonce : ℕ)
    (ps rs : List ℝ) (h : calculate_log_returns ps = Except.ok rs) :
    ∃ tx : TxRequest, script_transactions addr accNonce ps = Except.ok [tx] ∧
      tx.callArgs = rs.map to_64x64 ∧ tx.gas = 500000 ∧
      tx.gasPrice = toWeiGwei 1 ∧ toWeiGwei 1 = 1000000000 ∧
      tx.method = "addLogReturns" := by
  refine ⟨{ sender := addr, nonce := accNonce, gas := 500000, gasPrice := toWeiGwei 1,
            method := "addLogReturns", callArgs := rs.map to_64x64 },
    ?_, rfl, rfl, rfl, rfl, rfl⟩
  simp [script_transactions, h, bind, Except.bind, pure, Except.pure]

/-- Witness for C10 on the script's hardcoded price series. -/
theorem script_builds_single_transaction_witness :
    ∃ tx : TxRequest,
      script_transactions ("0xabc") 0 [(100 : ℝ), 105, 102, 108] = Except.ok [tx] ∧
      tx.callArgs =
        [Real.log (105 / 100), Real.log (102 / 105), Real.log (108 / 102)].map to_64x64 ∧
      tx.gas = 500000 ∧ tx.gasPrice = toWeiGwei 1 ∧ toWeiGwei 1 = 1000000000 ∧
      tx.method = "addLogReturns" :=
  script_builds_single_transaction ("0xabc") 0 _ _ calc_concrete
